import Mathlib

/-!
Verification of the VerbyFlow backend orchestration core.

Shallow embedding of the Python backend (src/backend): the session manager
(session_manager.py), the per-client message queue (message_queue.py), the
streaming-transcription controller and its audio buffer
(streaming_transcription.py), and the connection orchestrator cleanup and
audio paths (main.py).  Python dicts are embedded as association lists that
keep insertion order; `datetime.now()` is passed in as a logical `Nat`
timestamp; websocket handles, client ids and session ids (uuid4 strings)
are opaque `Nat` tokens, session-id freshness being modelled by a counter.
-/

namespace VerbyFlow

/-! ## message_queue.py : MessageQueue

`MessageQueue.__init__` builds `deque(maxlen=max_size)` with `max_size = 100`
by default; `add_message` appends, the deque silently evicting the oldest
entry when it is at capacity. -/

/-! ## session_manager.py : Session and SessionManager -/

/-- Python dict read `d.get(k)`: the value at the key, if present. -/
def alistLookup {K V : Type} [DecidableEq K] (k : K) : List (K × V) → Option V
  | [] => none
  | (k1, v1) :: rest => if k = k1 then some v1 else alistLookup k rest

/-- Python dict assignment `d[k] = v`: overwrite in place if the key is
present (Python dicts keep the position of an existing key), else append. -/
def alistInsert {K V : Type} [DecidableEq K] (k : K) (v : V) : List (K × V) → List (K × V)
  | [] => [(k, v)]
  | (k1, v1) :: rest => if k = k1 then (k, v) :: rest else (k1, v1) :: alistInsert k v rest

/-- Python `del d[k]`: remove the (first) entry with the given key. -/
def alistErase {K V : Type} [DecidableEq K] (k : K) : List (K × V) → List (K × V)
  | [] => []
  | (k1, v1) :: rest => if k = k1 then rest else (k1, v1) :: alistErase k rest

/-- One `add_message` call on the bounded deque: append the message; when the
deque already holds `cap` entries the oldest (leftmost) is evicted.  A
`deque(maxlen=0)` keeps nothing, which the `drop` form reproduces. -/
def addMessage {M : Type} (cap : Nat) (q : List M) (m : M) : List M :=
  if q.length < cap then q ++ [m] else (q ++ [m]).drop (q.length + 1 - cap)

/-- Default capacity from `MessageQueue.__init__` (`max_size: int = 100`). -/
def defaultQueueCapacity : Nat := 100

/-- Participant info record stored per websocket, as built by main.py
(`user_info`: username, role, source_language, target_language).  Roles are
plain strings in the source, compared against the literal speaker string. -/
structure UserInfo where
  username : String
  role : String
  source_language : String
  target_language : String
deriving DecidableEq, Repr

/-- State of `Session.__init__`: id, display name (defaulted from the id
when the given name is empty), creation and last-activity timestamps,
capacity, and the participant dict keyed by websocket handle. -/
structure Session where
  session_id : Nat
  name : String
  created_at : Nat
  max_participants : Nat
  participants : List (Nat × UserInfo)
  last_activity : Nat
deriving DecidableEq, Repr

/-- Constructor `Session.__init__(session_id, name, max_participants)`. -/
def mkSession (session_id : Nat) (name : String) (max_participants : Nat) (now : Nat) :
    Session :=
  { session_id := session_id
    name := if name.isEmpty then "Session " ++ toString session_id else name
    created_at := now
    max_participants := max_participants
    participants := []
    last_activity := now }

/-- Method `Session.add_participant`: capacity check, then dict insert and
activity-timestamp update. -/
def Session.add_participant (s : Session) (ws : Nat) (info : UserInfo) (now : Nat) :
    Bool × Session :=
  if s.max_participants ≤ s.participants.length then (false, s)
  else
    (true, { s with participants := alistInsert ws info s.participants, last_activity := now })

/-- Method `Session.remove_participant`. -/
def Session.remove_participant (s : Session) (ws : Nat) (now : Nat) : Bool × Session :=
  if (alistLookup ws s.participants).isSome then
    (true, { s with participants := alistErase ws s.participants, last_activity := now })
  else (false, s)

/-- Method `Session.get_participant_count`. -/
def Session.get_participant_count (s : Session) : Nat := s.participants.length

/-- Method `Session.is_full`. -/
def Session.is_full (s : Session) : Bool := s.max_participants ≤ s.participants.length

/-- Method `Session.is_empty`. -/
def Session.is_empty (s : Session) : Bool := s.participants.length = 0

/-- Method `Session.get_other_participants`: all participant keys except
the given websocket. -/
def Session.get_other_participants (s : Session) (ws : Nat) : List Nat :=
  (s.participants.map Prod.fst).filter (fun w => w != ws)

/-- State of `SessionManager.__init__`: the session map, the reverse index
from client (websocket) to session id, and the uuid4 generator modelled as
a fresh counter. -/
structure SMState where
  sessions : List (Nat × Session)
  client_sessions : List (Nat × Nat)
  counter : Nat
deriving DecidableEq, Repr

/-- Fresh `SessionManager()`. -/
def initSM : SMState := { sessions := [], client_sessions := [], counter := 0 }

/-- Method `SessionManager.create_session`: uuid4 generation modelled as the
fresh counter value.  Returns the created session and the updated state. -/
def create_session (st : SMState) (name : String) (max_participants : Nat) (now : Nat) :
    Session × SMState :=
  let sid := st.counter
  let s := mkSession sid name max_participants now
  (s, { st with sessions := alistInsert sid s st.sessions, counter := st.counter + 1 })

/-- Method `SessionManager.get_session`. -/
def get_session (st : SMState) (sid : Nat) : Option Session := alistLookup sid st.sessions

/-- Method `SessionManager.get_client_session`. -/
def get_client_session (st : SMState) (ws : Nat) : Option Session :=
  match alistLookup ws st.client_sessions with
  | some sid => get_session st sid
  | none => none

/-- Method `SessionManager.join_session`: missing-session check, capacity
check, then `add_participant` plus reverse-index update. -/
def join_session (st : SMState) (sid : Nat) (ws : Nat) (info : UserInfo) (now : Nat) :
    Bool × SMState :=
  match get_session st sid with
  | none => (false, st)
  | some s =>
    if s.is_full then (false, st)
    else
      let r := s.add_participant ws info now
      if r.1 then
        (true, { st with sessions := alistInsert sid r.2 st.sessions,
                         client_sessions := alistInsert ws sid st.client_sessions })
      else (false, { st with sessions := alistInsert sid r.2 st.sessions })

/-- Method `SessionManager.leave_session`.  In the source the `Session`
object is mutated in place, so the updated session is written back at the
key under which it was found; the empty-session cleanup then deletes
`session.session_id`. -/
def leave_session (st : SMState) (ws : Nat) (now : Nat) : Bool × SMState :=
  match alistLookup ws st.client_sessions with
  | none => (false, st)
  | some sid0 =>
    match alistLookup sid0 st.sessions with
    | none => (false, st)
    | some s =>
      let r := s.remove_participant ws now
      let st1 := { st with sessions := alistInsert sid0 r.2 st.sessions }
      if r.1 then
        let st2 := { st1 with client_sessions := alistErase ws st1.client_sessions }
        if r.2.is_empty then
          (true, { st2 with sessions := alistErase s.session_id st2.sessions })
        else (true, st2)
      else (false, st1)

/-- Method `SessionManager.get_other_session_participants`. -/
def get_other_session_participants (st : SMState) (ws : Nat) : List Nat :=
  match get_client_session st ws with
  | none => []
  | some s => s.get_other_participants ws

/-- One pass of `SessionManager._cleanup_inactive_sessions`: delete every
session whose last_activity is strictly older than the cutoff (the source
computes `now - timedelta(minutes=30)`).  The reverse index is not touched. -/
def cleanup_pass (st : SMState) (cutoff : Nat) : SMState :=
  { st with sessions := st.sessions.filter (fun p => !decide (p.2.last_activity < cutoff)) }

/-- Operations on the session manager exercised by the spec claims: the
inactivity sweep is one `cleanup_pass` at a given cutoff time. -/
inductive SMOp where
  | create (name : String) (maxp : Nat) (now : Nat)
  | join (sid : Nat) (ws : Nat) (info : UserInfo) (now : Nat)
  | leave (ws : Nat) (now : Nat)
  | sweep (cutoff : Nat)
deriving DecidableEq, Repr

/-- Apply one operation to the session-manager state. -/
def applySMOp (st : SMState) : SMOp → SMState
  | .create name maxp now => (create_session st name maxp now).2
  | .join sid ws info now => (join_session st sid ws info now).2
  | .leave ws now => (leave_session st ws now).2
  | .sweep cutoff => cleanup_pass st cutoff

/-- Run a whole operation sequence from a fresh manager. -/
def runSMOps (ops : List SMOp) : SMState := ops.foldl applySMOp initSM

/-- Test for the sweep operation. -/
def SMOp.isSweep : SMOp → Bool
  | .sweep _ => true
  | _ => false

/-- Consistency link claimed for the session map and the reverse index: a
client in the reverse index is a participant of the session the index maps
it to (which in particular exists). -/
def linkInv (st : SMState) : Prop :=
  ∀ ws sid, alistLookup ws st.client_sessions = some sid →
    ∃ s, alistLookup sid st.sessions = some s ∧ (alistLookup ws s.participants).isSome = true

/-- Internal well-formedness of a session-manager state: session keys are
below the id counter (uuid freshness), each session records its own map key
as its id, reverse-index keys are distinct, and the consistency link holds. -/
def SMInv (st : SMState) : Prop :=
  (∀ p ∈ st.sessions, p.1 < st.counter) ∧
  (∀ p ∈ st.sessions, p.2.session_id = p.1) ∧
  (st.client_sessions.map Prod.fst).Nodup ∧
  linkInv st

/-- Capacity invariant claimed for every session in the manager. -/
def countInv (st : SMState) : Prop :=
  ∀ p ∈ st.sessions, p.2.get_participant_count ≤ p.2.max_participants

/-- Sample participant info used in concrete witnesses. -/
def demoInfo : UserInfo :=
  { username := "alice", role := "speaker", source_language := "en", target_language := "es" }

/-- One-slot session used to witness the last-slot exclusion of C3. -/
def demoSession1 : Session :=
  { session_id := 0, name := "demo", created_at := 0, max_participants := 1,
    participants := [], last_activity := 0 }

/-- Manager state holding the one-slot session. -/
def demoSMState : SMState :=
  { sessions := [(0, demoSession1)], client_sessions := [], counter := 1 }

/-- Create-join-sweep trace: client 1 joins session 0, then the sweep runs
with a cutoff newer than the last activity. -/
def sweepTrace : List SMOp :=
  [SMOp.create "" 2 0, SMOp.join 0 1 demoInfo 0, SMOp.sweep 1]

/-- Create-join trace with no sweep. -/
def noSweepTrace : List SMOp :=
  [SMOp.create "" 2 0, SMOp.join 0 1 demoInfo 0]

/-- Two-participant session used in concrete leave-session witnesses. -/
def demoTwoSession : Session :=
  { session_id := 0, name := "pair", created_at := 0, max_participants := 2,
    participants := [(1, demoInfo), (2, demoInfo)], last_activity := 0 }

/-- Manager state holding the two-participant session, both clients indexed. -/
def demoTwoState : SMState :=
  { sessions := [(0, demoTwoSession)], client_sessions := [(1, 0), (2, 0)], counter := 1 }

/-- One-participant session whose last leaver should delete it. -/
def demoOneSession : Session :=
  { session_id := 0, name := "solo", created_at := 0, max_participants := 2,
    participants := [(1, demoInfo)], last_activity := 0 }

/-- Manager state holding the one-participant session. -/
def demoOneState : SMState :=
  { sessions := [(0, demoOneSession)], client_sessions := [(1, 0)], counter := 1 }

/-! ## streaming_transcription.py : AudioBuffer and StreamingTranscriber

Audio bytes are embedded as `List Nat`; the Whisper model is an external
engine, passed in as a `recognize` function that either returns the
transcribed text or raises (returns an error). -/

/-- State of `AudioBuffer.__init__`: the pending chunk list plus the
diagnostic sample counters (the spec notes the counters are not used for
correctness; they are still modelled). -/
structure AudioBuffer where
  buffer : List (List Nat)
  total_samples : Nat
  last_transcription_end : Nat
deriving DecidableEq, Repr

/-- Fresh `AudioBuffer()`. -/
def AudioBuffer.init : AudioBuffer :=
  { buffer := [], total_samples := 0, last_transcription_end := 0 }

/-- Method `AudioBuffer.add_chunk`: append the chunk under the lock and
bump the approximate sample count (2 bytes per sample). -/
def AudioBuffer.add_chunk (b : AudioBuffer) (audio_chunk : List Nat) : AudioBuffer :=
  { b with buffer := b.buffer ++ [audio_chunk],
           total_samples := b.total_samples + audio_chunk.length / 2 }

/-- Method `AudioBuffer.get_new_audio`: under the lock, return `none` when
no chunk is pending, else the concatenation of all pending chunks, leaving
the buffer empty. -/
def AudioBuffer.get_new_audio (b : AudioBuffer) : Option (List Nat) × AudioBuffer :=
  if b.buffer = [] then (none, b)
  else (some b.buffer.flatten, { b with buffer := [] })

/-- Method `AudioBuffer.clear`: reset buffer and counters. -/
def AudioBuffer.clear (b : AudioBuffer) : AudioBuffer :=
  { b with buffer := [], total_samples := 0, last_transcription_end := 0 }

/-- Add/take operations interleaved on one AudioBuffer. -/
inductive ABOp where
  | add (chunk : List Nat)
  | take
deriving DecidableEq, Repr

/-- Run an interleaving of add_chunk/get_new_audio calls, collecting every
get_new_audio result in order. -/
def runABOps : List ABOp → AudioBuffer → List (Option (List Nat)) × AudioBuffer
  | [], b => ([], b)
  | .add c :: rest, b => runABOps rest (b.add_chunk c)
  | .take :: rest, b =>
    let r := b.get_new_audio
    let rec9 := runABOps rest r.2
    (r.1 :: rec9.1, rec9.2)

/-- Bytes returned across the take calls of a trace, concatenated in order
(a `none` result contributes nothing). -/
def outBytes (outs : List (Option (List Nat))) : List Nat :=
  (outs.map (fun o => o.getD [])).flatten

/-- Bytes passed to add_chunk across a trace, concatenated in order. -/
def inBytes (ops : List ABOp) : List Nat :=
  (ops.filterMap (fun op => match op with | .add c => some c | .take => none)).flatten

/-- Sample interleaved trace used in the C6 witness. -/
def demoABTrace : List ABOp :=
  [ABOp.add [1, 2], ABOp.add [3], ABOp.take, ABOp.take, ABOp.add [4], ABOp.take]

/-- State of `StreamingTranscriber.__init__` (the external Whisper model
and the optional callback are not part of the state; the recognizer is
passed to the cycle function). -/
structure TranscriberState where
  audio_buffer : AudioBuffer
  running : Bool
  source_language : String
  transcription_queue : List (String × Rat)
  processing_thread : Bool
deriving DecidableEq, Repr

/-- Fresh `StreamingTranscriber()`. -/
def mkTranscriber : TranscriberState :=
  { audio_buffer := AudioBuffer.init, running := false, source_language := "en",
    transcription_queue := [], processing_thread := false }

/-- Method `StreamingTranscriber.start`: no-op when the processing thread
is already alive, else set the running flag and spawn the thread. -/
def TranscriberState.start (st : TranscriberState) : TranscriberState :=
  if st.processing_thread then st
  else { st with running := true, processing_thread := true }

/-- Method `StreamingTranscriber.stop`: clear the running flag, join the
thread with the bounded 2-second timeout (the joined thread is dropped),
and clear the AudioBuffer. -/
def TranscriberState.stop (st : TranscriberState) : TranscriberState :=
  { st with running := false, processing_thread := false,
            audio_buffer := st.audio_buffer.clear }

/-- Method `StreamingTranscriber.add_audio_chunk`. -/
def TranscriberState.add_audio_chunk (st : TranscriberState) (chunk : List Nat) :
    TranscriberState :=
  { st with audio_buffer := st.audio_buffer.add_chunk chunk }

/-- Minimum byte threshold of the recognition loop in `_process_audio`. -/
def minAudioBytes : Nat := 8000

/-- Method `_transcribe_audio_chunk`: wrap the bytes as a WAV file and call
the recognizer; on success return the stripped text with the placeholder
confidence 1.0; any exception is caught and logged and the ("", 0.0)
sentinel is returned. -/
def transcribeAudioChunk (recognize : List Nat → Except String String)
    (audio_data : List Nat) : String × Rat :=
  match recognize audio_data with
  | .ok text => (text.trim, 1)
  | .error _ => ("", 0)

/-- One iteration of the `_process_audio` loop body after the 0.5 s sleep:
take the accumulated audio; skip the cycle when there is none or it is
below the 8000-byte threshold; otherwise invoke the recognizer exactly
once on the combined bytes and append the result pair to the result queue.
The guard `if result:` in the source is a Python truthiness test on a
2-tuple, which is always true, so the pair is appended even when it is the
error sentinel.  The returned Option carries the audio the recognizer was
invoked on, if the cycle made a recognition call. -/
def processAudioCycle (recognize : List Nat → Except String String)
    (st : TranscriberState) : TranscriberState × Option (List Nat) :=
  let r := st.audio_buffer.get_new_audio
  match r.1 with
  | none => ({ st with audio_buffer := r.2 }, none)
  | some audio_data =>
    if audio_data.length < minAudioBytes then
      ({ st with audio_buffer := r.2 }, none)
    else
      let result := transcribeAudioChunk recognize audio_data
      ({ st with audio_buffer := r.2,
                 transcription_queue := st.transcription_queue ++ [result] },
        some audio_data)

/-- The `while self.running` recognition loop of `_process_audio`,
fuel-indexed: each iteration runs one cycle; the loop exits only when the
running flag is observed false (exceptions are caught inside the loop, so
every iteration completes). -/
def processLoop (recognize : List Nat → Except String String) :
    Nat → TranscriberState → TranscriberState
  | 0, st => st
  | fuel + 1, st =>
    if st.running then processLoop recognize fuel (processAudioCycle recognize st).1
    else st

/-- The `get_transcriptions` async generator, fuel-indexed: at each poll it
reads the running flag — which `stop` may clear concurrently, hence a
schedule of observed values per tick — and terminates when it is false;
otherwise it yields the queue head when one is pending (`get_nowait`) or
sleeps for the tick. -/
def getTranscriptions (runningAt : Nat → Bool) (queueHead : Nat → Option (String × Rat)) :
    Nat → Nat → List (String × Rat)
  | 0, _ => []
  | fuel + 1, tick =>
    if runningAt tick then
      match queueHead tick with
      | some item => item :: getTranscriptions runningAt queueHead fuel (tick + 1)
      | none => getTranscriptions runningAt queueHead fuel (tick + 1)
    else []

/-- Buffer preloaded with five 2000-byte chunks, the C7 spec scenario. -/
def fiveChunkBuffer : AudioBuffer :=
  { buffer := List.replicate 5 (List.replicate 2000 0), total_samples := 5000,
    last_transcription_end := 0 }

/-- Running transcriber holding the five 2000-byte chunks. -/
def fiveChunkTranscriber : TranscriberState :=
  { audio_buffer := fiveChunkBuffer, running := true, source_language := "en",
    transcription_queue := [], processing_thread := true }

/-! ## main.py : connection orchestrator -/

/-- Per-connection configuration dict initialised on accept. -/
structure ClientConfig where
  source_language : String
  target_language : String
  role : String
  client_id : Nat
  session_id : Option Nat
  username : String
deriving DecidableEq, Repr

/-- Default config written for a fresh connection (role defaults to
speaker; the client id is derived from the connection handle). -/
def defaultClientConfig (client_id : Nat) : ClientConfig :=
  { source_language := "en", target_language := "es", role := "speaker",
    client_id := client_id, session_id := none,
    username := "User-" ++ toString client_id }

/-- Module-level state of main.py: active_connections, client_configs,
active_transcribers, the ClientMessageManager queues (client id → pending
audio chunks), and the session manager singleton. -/
structure ServerState where
  active_connections : List Nat
  client_configs : List (Nat × ClientConfig)
  active_transcribers : List (Nat × TranscriberState)
  client_queues : List (Nat × List (List Nat))
  session_manager : SMState
deriving Repr

/-- The `finally` cleanup block of `websocket_endpoint` on disconnect: read
the client id from the config, stop and drop the transcriber, remove the
connection from active_connections, delete the config, and remove the
client's message queue (the transcription task is also cancelled, which
has no effect on this state).  No session-manager call appears in the
block: the connection does not leave its session. -/
def disconnectCleanup (ws : Nat) (st : ServerState) : ServerState :=
  let client_id := (alistLookup ws st.client_configs).map (fun c => c.client_id)
  let st1 :=
    match alistLookup ws st.active_transcribers with
    | some _ => { st with active_transcribers := alistErase ws st.active_transcribers }
    | none => st
  let st2 := { st1 with active_connections := st1.active_connections.erase ws }
  let st3 :=
    match alistLookup ws st2.client_configs with
    | some _ => { st2 with client_configs := alistErase ws st2.client_configs }
    | none => st2
  match client_id with
  | some cid => { st3 with client_queues := alistErase cid st3.client_queues }
  | none => st3

/-- Server state with clients 1 and 2 connected and paired in session 0. -/
def c1ServerState : ServerState :=
  { active_connections := [1, 2],
    client_configs :=
      [(1, { defaultClientConfig 1 with session_id := some 0 }),
       (2, { defaultClientConfig 2 with session_id := some 0 })],
    active_transcribers := [(1, mkTranscriber), (2, mkTranscriber)],
    client_queues := [(1, []), (2, [])],
    session_manager := demoTwoState }

/-- The `process_audio` processor registered per connection in
`websocket_endpoint`: feed the chunk to the transcriber's buffer only when
the client's current role — read from the config at call time — is the
speaker role. -/
def process_audio (role : String) (tr : TranscriberState) (audio_data : List Nat) :
    TranscriberState :=
  if role = "speaker" then tr.add_audio_chunk audio_data else tr

/-- The binary-frame path of `websocket_endpoint`: a non-empty chunk is
queued via `message_manager.add_message` regardless of the client's role —
the role argument is deliberately unused, as in the source it only selects
an informational reply to the client. -/
def enqueueAudio (_role : String) (queue : List (List Nat)) (audio_data : List Nat) :
    List (List Nat) :=
  if 0 < audio_data.length then addMessage defaultQueueCapacity queue audio_data else queue

/-- The `_process_queue` drain specialised to the registered audio
processor: dequeue FIFO, running the processor on each message with the
role current at that dequeue tick (the config may change between
iterations). -/
def drainQueue (roleAt : Nat → String) : Nat → TranscriberState → List (List Nat) →
    TranscriberState
  | _, tr, [] => tr
  | tick, tr, msg :: rest => drainQueue roleAt (tick + 1) (process_audio (roleAt tick) tr msg) rest

/-- Chunks of a queue whose dequeue tick sees the speaker role: the
specification of which queued chunks reach the transcriber. -/
def speakerChunks (roleAt : Nat → String) : Nat → List (List Nat) → List (List Nat)
  | _, [] => []
  | tick, c :: rest =>
    (if roleAt tick = "speaker" then [c] else []) ++ speakerChunks roleAt (tick + 1) rest

/-! ## Helper lemmas -/

theorem alistLookup_insert_self {K V : Type} [DecidableEq K] (k : K) (v : V) (l : List (K × V)) :
    alistLookup k (alistInsert k v l) = some v := by
  induction l with
  | nil => simp [alistInsert, alistLookup]
  | cons p rest ih =>
    obtain ⟨k1, v1⟩ := p
    by_cases h : k = k1
    · simp [alistInsert, h, alistLookup]
    · simp [alistInsert, h, alistLookup, ih]

theorem alistLookup_insert_ne {K V : Type} [DecidableEq K] (k k9 : K) (v : V) (l : List (K × V))
    (hne : k9 ≠ k) : alistLookup k9 (alistInsert k v l) = alistLookup k9 l := by
  induction l with
  | nil => simp [alistInsert, alistLookup, hne]
  | cons p rest ih =>
    obtain ⟨k1, v1⟩ := p
    by_cases h : k = k1
    · subst h
      simp [alistInsert, alistLookup, hne]
    · by_cases h9 : k9 = k1
      · simp [alistInsert, h, alistLookup, h9]
      · simp [alistInsert, h, alistLookup, h9, ih]

theorem alistLookup_erase_ne {K V : Type} [DecidableEq K] (k k9 : K) (l : List (K × V))
    (hne : k9 ≠ k) : alistLookup k9 (alistErase k l) = alistLookup k9 l := by
  induction l with
  | nil => simp [alistErase]
  | cons p rest ih =>
    obtain ⟨k1, v1⟩ := p
    by_cases h : k = k1
    · subst h
      simp [alistErase, alistLookup, hne]
    · by_cases h9 : k9 = k1
      · simp [alistErase, h, alistLookup, h9]
      · simp [alistErase, h, alistLookup, h9, ih]

theorem mem_alistInsert {K V : Type} [DecidableEq K] (k : K) (v : V) (l : List (K × V))
    (p : K × V) (hp : p ∈ alistInsert k v l) : p = (k, v) ∨ p ∈ l := by
  induction l with
  | nil => simpa [alistInsert] using hp
  | cons q rest ih =>
    obtain ⟨k1, v1⟩ := q
    by_cases h : k = k1
    · subst h
      simp [alistInsert] at hp
      rcases hp with hp | hp
      · left; simpa using hp
      · right; simp [hp]
    · simp [alistInsert, h] at hp
      rcases hp with hp | hp
      · right; simp [hp]
      · rcases ih hp with h1 | h1
        · left; exact h1
        · right; simp [h1]

theorem mem_alistErase {K V : Type} [DecidableEq K] (k : K) (l : List (K × V))
    (p : K × V) (hp : p ∈ alistErase k l) : p ∈ l := by
  induction l with
  | nil => simp [alistErase] at hp
  | cons q rest ih =>
    obtain ⟨k1, v1⟩ := q
    by_cases h : k = k1
    · simp [alistErase, h] at hp
      simp [hp]
    · simp [alistErase, h] at hp
      rcases hp with hp | hp
      · simp [hp]
      · simp [ih hp]

theorem length_alistInsert_le {K V : Type} [DecidableEq K] (k : K) (v : V) (l : List (K × V)) :
    (alistInsert k v l).length ≤ l.length + 1 := by
  induction l with
  | nil => simp [alistInsert]
  | cons q rest ih =>
    obtain ⟨k1, v1⟩ := q
    by_cases h : k = k1
    · simp [alistInsert, h]
    · simp only [alistInsert, h, if_false, List.length_cons]
      omega

theorem length_alistErase_le {K V : Type} [DecidableEq K] (k : K) (l : List (K × V)) :
    (alistErase k l).length ≤ l.length := by
  induction l with
  | nil => simp [alistErase]
  | cons q rest ih =>
    obtain ⟨k1, v1⟩ := q
    by_cases h : k = k1
    · simp [alistErase, h]
    · simp only [alistErase, h, if_false, List.length_cons]
      omega

theorem foldl_addMessage {M : Type} (cap : Nat) (ms : List M) :
    List.foldl (addMessage cap) [] ms = ms.drop (ms.length - cap) := by
  induction ms using List.reverseRecOn with
  | nil => simp
  | append_singleton ms m ih =>
    rw [List.foldl_append, List.foldl_cons, List.foldl_nil, ih]
    unfold addMessage
    by_cases hlc : ms.length < cap
    · have h0 : ms.length - cap = 0 := by omega
      have h1 : ms.length + 1 - cap = 0 := by omega
      have hlen : (ms.drop (ms.length - cap)).length = ms.length := by
        simp [h0]
      rw [if_pos (by rw [hlen]; exact hlc)]
      simp [h0, h1]
    · have hcap : cap ≤ ms.length := Nat.le_of_not_lt hlc
      have hlen : (ms.drop (ms.length - cap)).length = cap := by
        rw [List.length_drop]
        omega
      rw [if_neg (by rw [hlen]; exact Nat.lt_irrefl cap)]
      rw [hlen]
      by_cases hc0 : cap = 0
      · subst hc0
        simp [List.drop_eq_nil_of_le, List.length_append]
      · have h1 : cap + 1 - cap = 1 := by omega
        have h2 : ms.length - cap + 1 ≤ ms.length := by omega
        have h4 : (ms ++ [m]).length - cap = ms.length - cap + 1 := by
          simp only [List.length_append, List.length_cons, List.length_nil]
          omega
        rw [h1, List.drop_append_of_le_length (by rw [List.length_drop]; omega),
          List.drop_drop, h4, List.drop_append_of_le_length h2]

theorem addMessage_getLast {M : Type} (cap : Nat) (q : List M) (m : M) (hc : 0 < cap) :
    (addMessage cap q m).getLast? = some m := by
  unfold addMessage
  by_cases h : q.length < cap
  · rw [if_pos h]
    exact List.getLast?_concat q
  · rw [if_neg h]
    rw [List.drop_append_of_le_length (by omega)]
    exact List.getLast?_concat _

theorem alistLookup_mem {K V : Type} [DecidableEq K] (k : K) (v : V) (l : List (K × V))
    (h : alistLookup k l = some v) : (k, v) ∈ l := by
  induction l with
  | nil => simp [alistLookup] at h
  | cons q rest ih =>
    obtain ⟨k1, v1⟩ := q
    by_cases hk : k = k1
    · subst hk
      simp [alistLookup] at h
      simp [h]
    · simp only [alistLookup, if_neg hk] at h
      simp [ih h]

theorem alistInsert_lookup_eq {K V : Type} [DecidableEq K] (k : K) (v : V) (l : List (K × V))
    (h : alistLookup k l = some v) : alistInsert k v l = l := by
  induction l with
  | nil => simp [alistLookup] at h
  | cons q rest ih =>
    obtain ⟨k1, v1⟩ := q
    by_cases hk : k = k1
    · subst hk
      simp [alistLookup] at h
      simp [alistInsert, h]
    · simp only [alistLookup, if_neg hk] at h
      simp [alistInsert, hk, ih h]

theorem mem_keys_alistInsert {K V : Type} [DecidableEq K] (k w : K) (v : V) (l : List (K × V))
    (hw : w ∈ (alistInsert k v l).map Prod.fst) : w = k ∨ w ∈ l.map Prod.fst := by
  simp only [List.mem_map] at hw
  obtain ⟨p, hp, hw⟩ := hw
  rcases mem_alistInsert k v l p hp with h | h
  · left; rw [← hw, h]
  · right
    exact List.mem_map.mpr ⟨p, h, hw⟩

theorem keysNodup_alistInsert {K V : Type} [DecidableEq K] (k : K) (v : V) (l : List (K × V))
    (hnd : (l.map Prod.fst).Nodup) : ((alistInsert k v l).map Prod.fst).Nodup := by
  induction l with
  | nil => simp [alistInsert]
  | cons q rest ih =>
    obtain ⟨k1, v1⟩ := q
    simp only [List.map_cons, List.nodup_cons] at hnd
    by_cases h : k = k1
    · subst h
      have heq : alistInsert k v ((k, v1) :: rest) = (k, v) :: rest := by
        simp [alistInsert]
      rw [heq]
      simp only [List.map_cons, List.nodup_cons]
      exact hnd
    · simp only [alistInsert, if_neg h, List.map_cons, List.nodup_cons]
      refine ⟨fun hmem => ?_, ih hnd.2⟩
      rcases mem_keys_alistInsert k k1 v rest hmem with h1 | h1
      · exact h h1.symm
      · exact hnd.1 h1

theorem keysNodup_alistErase {K V : Type} [DecidableEq K] (k : K) (l : List (K × V))
    (hnd : (l.map Prod.fst).Nodup) : ((alistErase k l).map Prod.fst).Nodup := by
  induction l with
  | nil => simp [alistErase]
  | cons q rest ih =>
    obtain ⟨k1, v1⟩ := q
    simp only [List.map_cons, List.nodup_cons] at hnd
    by_cases h : k = k1
    · simp only [alistErase, if_pos h]
      exact hnd.2
    · simp only [alistErase, if_neg h, List.map_cons, List.nodup_cons]
      refine ⟨fun hmem => ?_, ih hnd.2⟩
      simp only [List.mem_map] at hmem
      obtain ⟨p, hp, hk1⟩ := hmem
      exact hnd.1 (List.mem_map.mpr ⟨p, mem_alistErase k rest p hp, hk1⟩)

theorem alistLookup_eq_none_of_not_mem_keys {K V : Type} [DecidableEq K] (k : K)
    (l : List (K × V)) (h : k ∉ l.map Prod.fst) : alistLookup k l = none := by
  induction l with
  | nil => simp [alistLookup]
  | cons q rest ih =>
    obtain ⟨k1, v1⟩ := q
    simp only [List.map_cons, List.mem_cons] at h
    push_neg at h
    simp [alistLookup, h.1, ih h.2]

theorem alistLookup_erase_self {K V : Type} [DecidableEq K] (k : K) (l : List (K × V))
    (hnd : (l.map Prod.fst).Nodup) : alistLookup k (alistErase k l) = none := by
  induction l with
  | nil => simp [alistErase, alistLookup]
  | cons q rest ih =>
    obtain ⟨k1, v1⟩ := q
    simp only [List.map_cons, List.nodup_cons] at hnd
    by_cases h : k = k1
    · subst h
      simp only [alistErase, if_pos rfl]
      rw [alistLookup_eq_none_of_not_mem_keys]
      intro hmem
      exact hnd.1 hmem
    · simp [alistErase, h, alistLookup, ih hnd.2]

theorem length_alistInsert_of_none {K V : Type} [DecidableEq K] (k : K) (v : V)
    (l : List (K × V)) (h : alistLookup k l = none) :
    (alistInsert k v l).length = l.length + 1 := by
  induction l with
  | nil => simp [alistInsert]
  | cons q rest ih =>
    obtain ⟨k1, v1⟩ := q
    by_cases hk : k = k1
    · subst hk
      simp [alistLookup] at h
    · simp only [alistLookup, if_neg hk] at h
      simp [alistInsert, hk, ih h]

theorem not_full_of_is_full_false (s : Session) (h : ¬ s.is_full = true) :
    s.participants.length < s.max_participants := by
  simp [Session.is_full] at h
  exact h

theorem add_participant_of_not_full (s : Session) (ws : Nat) (info : UserInfo) (now : Nat)
    (h : s.participants.length < s.max_participants) :
    s.add_participant ws info now =
      (true, { s with participants := alistInsert ws info s.participants,
                      last_activity := now }) := by
  simp [Session.add_participant, Nat.not_le.mpr h]

theorem remove_participant_of_mem (s : Session) (ws : Nat) (now : Nat)
    (h : (alistLookup ws s.participants).isSome = true) :
    s.remove_participant ws now =
      (true, { s with participants := alistErase ws s.participants,
                      last_activity := now }) := by
  simp [Session.remove_participant, h]

theorem countInv_apply (st : SMState) (op : SMOp) (h : countInv st) :
    countInv (applySMOp st op) := by
  cases op with
  | create name maxp now =>
    intro p hp
    simp only [applySMOp, create_session] at hp
    rcases mem_alistInsert _ _ _ p hp with h1 | h1
    · subst h1
      simp [mkSession, Session.get_participant_count]
    · exact h p h1
  | join sid ws info now =>
    cases hgs : get_session st sid with
    | none =>
      simp only [applySMOp, join_session, hgs]
      exact h
    | some s =>
      by_cases hfull : s.is_full = true
      · simp only [applySMOp, join_session, hgs, if_pos hfull]
        exact h
      · have hlt := not_full_of_is_full_false s hfull
        have hadd := add_participant_of_not_full s ws info now hlt
        simp only [applySMOp, join_session, hgs, if_neg hfull, hadd]
        intro p hp
        rcases mem_alistInsert _ _ _ p hp with h1 | h1
        · subst h1
          simp only [Session.get_participant_count]
          calc (alistInsert ws info s.participants).length
              ≤ s.participants.length + 1 := length_alistInsert_le ws info s.participants
            _ ≤ s.max_participants := hlt
        · exact h p h1
  | leave ws now =>
    cases hcs : alistLookup ws st.client_sessions with
    | none =>
      simp only [applySMOp, leave_session, hcs]
      exact h
    | some sid0 =>
      cases hgs : alistLookup sid0 st.sessions with
      | none =>
        simp only [applySMOp, leave_session, hcs, hgs]
        exact h
      | some s =>
        have hsmem : (sid0, s) ∈ st.sessions := alistLookup_mem sid0 s st.sessions hgs
        have hsbound := h (sid0, s) hsmem
        by_cases hin : (alistLookup ws s.participants).isSome = true
        · have hrem := remove_participant_of_mem s ws now hin
          by_cases hemp :
              (Session.is_empty { s with participants := alistErase ws s.participants,
                                         last_activity := now }) = true
          · simp only [applySMOp, leave_session, hcs, hgs, hrem, if_pos hemp]
            intro p hp
            have hp1 := mem_alistErase _ _ p hp
            rcases mem_alistInsert _ _ _ p hp1 with h1 | h1
            · subst h1
              simp only [Session.get_participant_count] at hsbound ⊢
              calc (alistErase ws s.participants).length
                  ≤ s.participants.length := length_alistErase_le ws s.participants
                _ ≤ s.max_participants := hsbound
            · exact h p h1
          · simp only [applySMOp, leave_session, hcs, hgs, hrem, if_neg hemp]
            intro p hp
            rcases mem_alistInsert _ _ _ p hp with h1 | h1
            · subst h1
              simp only [Session.get_participant_count] at hsbound ⊢
              calc (alistErase ws s.participants).length
                  ≤ s.participants.length := length_alistErase_le ws s.participants
                _ ≤ s.max_participants := hsbound
            · exact h p h1
        · have hrem : s.remove_participant ws now = (false, s) := by
            simp [Session.remove_participant, hin]
          simp only [applySMOp, leave_session, hcs, hgs, hrem]
          intro p hp
          rcases mem_alistInsert _ _ _ p hp with h1 | h1
          · subst h1
            exact hsbound
          · exact h p h1
  | sweep cutoff =>
    intro p hp
    simp only [applySMOp, cleanup_pass] at hp
    exact h p (List.mem_filter.mp hp).1

theorem countInv_foldl (ops : List SMOp) (st : SMState) (h : countInv st) :
    countInv (ops.foldl applySMOp st) := by
  induction ops generalizing st with
  | nil => exact h
  | cons op rest ih => exact ih _ (countInv_apply st op h)

theorem SMInv_init : SMInv initSM := by
  refine ⟨?_, ?_, ?_, ?_⟩
  · intro p hp
    simp [initSM] at hp
  · intro p hp
    simp [initSM] at hp
  · simp [initSM]
  · intro ws sid hws
    simp [initSM, alistLookup] at hws

theorem SMInv_create (st : SMState) (name : String) (maxp now : Nat) (h : SMInv st) :
    SMInv (create_session st name maxp now).2 := by
  obtain ⟨hb, hid, hnd, hlink⟩ := h
  refine ⟨?_, ?_, ?_, ?_⟩
  · intro p hp
    simp only [create_session] at hp ⊢
    rcases mem_alistInsert _ _ _ p hp with h1 | h1
    · subst h1
      simp
    · have := hb p h1
      omega
  · intro p hp
    simp only [create_session] at hp
    rcases mem_alistInsert _ _ _ p hp with h1 | h1
    · subst h1
      simp [mkSession]
    · exact hid p h1
  · simpa [create_session] using hnd
  · intro ws sid hws
    simp only [create_session] at hws ⊢
    obtain ⟨s, hs, hmem⟩ := hlink ws sid hws
    refine ⟨s, ?_, hmem⟩
    have hne : sid ≠ st.counter := by
      have := hb (sid, s) (alistLookup_mem sid s st.sessions hs)
      simp only at this
      omega
    rw [alistLookup_insert_ne _ _ _ _ hne]
    exact hs

theorem SMInv_join (st : SMState) (sid ws : Nat) (info : UserInfo) (now : Nat)
    (h : SMInv st) : SMInv (join_session st sid ws info now).2 := by
  obtain ⟨hb, hid, hnd, hlink⟩ := h
  cases hgs : get_session st sid with
  | none =>
    simp only [join_session, hgs]
    exact ⟨hb, hid, hnd, hlink⟩
  | some s =>
    have hgs' : alistLookup sid st.sessions = some s := hgs
    have hsmem : (sid, s) ∈ st.sessions := alistLookup_mem sid s st.sessions hgs'
    by_cases hfull : s.is_full = true
    · simp only [join_session, hgs, if_pos hfull]
      exact ⟨hb, hid, hnd, hlink⟩
    · have hlt := not_full_of_is_full_false s hfull
      have hadd := add_participant_of_not_full s ws info now hlt
      have hjoin : (join_session st sid ws info now).2 =
          { st with
            sessions := alistInsert sid
              { s with participants := alistInsert ws info s.participants,
                       last_activity := now } st.sessions,
            client_sessions := alistInsert ws sid st.client_sessions } := by
        simp [join_session, hgs, hfull, hadd]
      rw [hjoin]
      refine ⟨?_, ?_, ?_, ?_⟩
      · intro p hp
        rcases mem_alistInsert _ _ _ p hp with h1 | h1
        · subst h1
          exact hb (sid, s) hsmem
        · exact hb p h1
      · intro p hp
        rcases mem_alistInsert _ _ _ p hp with h1 | h1
        · subst h1
          simpa using hid (sid, s) hsmem
        · exact hid p h1
      · exact keysNodup_alistInsert ws sid st.client_sessions hnd
      · intro ws9 sid9 h9
        by_cases hws : ws9 = ws
        · subst hws
          rw [alistLookup_insert_self] at h9
          have hsid9 : sid9 = sid := (Option.some.inj h9).symm
          subst hsid9
          refine ⟨_, alistLookup_insert_self _ _ _, ?_⟩
          simp [alistLookup_insert_self]
        · rw [alistLookup_insert_ne _ _ _ _ hws] at h9
          obtain ⟨s9, hs9, hmem9⟩ := hlink ws9 sid9 h9
          by_cases hsid : sid9 = sid
          · subst hsid
            rw [hgs'] at hs9
            have hseq : s9 = s := (Option.some.inj hs9).symm
            rw [hseq] at hmem9
            refine ⟨_, alistLookup_insert_self _ _ _, ?_⟩
            simp only
            rw [alistLookup_insert_ne _ _ _ _ hws]
            exact hmem9
          · refine ⟨s9, ?_, hmem9⟩
            rw [alistLookup_insert_ne _ _ _ _ hsid]
            exact hs9

theorem SMInv_leave (st : SMState) (ws now : Nat) (h : SMInv st) :
    SMInv (leave_session st ws now).2 := by
  obtain ⟨hb, hid, hnd, hlink⟩ := h
  cases hcs : alistLookup ws st.client_sessions with
  | none =>
    simp only [leave_session, hcs]
    exact ⟨hb, hid, hnd, hlink⟩
  | some sid0 =>
    cases hgs : alistLookup sid0 st.sessions with
    | none =>
      simp only [leave_session, hcs, hgs]
      exact ⟨hb, hid, hnd, hlink⟩
    | some s =>
      have hsmem : (sid0, s) ∈ st.sessions := alistLookup_mem sid0 s st.sessions hgs
      have hsid : s.session_id = sid0 := hid (sid0, s) hsmem
      by_cases hin : (alistLookup ws s.participants).isSome = true
      · have hrem := remove_participant_of_mem s ws now hin
        by_cases hemp :
            (Session.is_empty { s with participants := alistErase ws s.participants,
                                       last_activity := now }) = true
        · have hnil : alistErase ws s.participants = [] := by
            simp only [Session.is_empty, decide_eq_true_eq] at hemp
            exact List.length_eq_zero.mp hemp
          have hleave : (leave_session st ws now).2 =
              { st with
                sessions := alistErase s.session_id (alistInsert sid0
                  { s with participants := alistErase ws s.participants,
                           last_activity := now } st.sessions),
                client_sessions := alistErase ws st.client_sessions } := by
            simp [leave_session, hcs, hgs, hrem, hemp]
          rw [hsid] at hleave
          rw [hleave]
          refine ⟨?_, ?_, ?_, ?_⟩
          · intro p hp
            have hp1 := mem_alistErase _ _ p hp
            rcases mem_alistInsert _ _ _ p hp1 with h1 | h1
            · subst h1
              exact hb (sid0, s) hsmem
            · exact hb p h1
          · intro p hp
            have hp1 := mem_alistErase _ _ p hp
            rcases mem_alistInsert _ _ _ p hp1 with h1 | h1
            · subst h1
              simp
            · exact hid p h1
          · exact keysNodup_alistErase ws st.client_sessions hnd
          · intro ws9 sid9 h9
            by_cases hws : ws9 = ws
            · subst hws
              rw [alistLookup_erase_self ws9 st.client_sessions hnd] at h9
              exact absurd h9 (by simp)
            · rw [alistLookup_erase_ne _ _ _ hws] at h9
              obtain ⟨s9, hs9, hmem9⟩ := hlink ws9 sid9 h9
              by_cases hsid9 : sid9 = sid0
              · subst hsid9
                rw [hgs] at hs9
                have hseq : s9 = s := (Option.some.inj hs9).symm
                rw [hseq] at hmem9
                exfalso
                have : alistLookup ws9 (alistErase ws s.participants) =
                    alistLookup ws9 s.participants := alistLookup_erase_ne _ _ _ hws
                rw [hnil] at this
                simp [alistLookup] at this
                rw [← this] at hmem9
                simp at hmem9
              · refine ⟨s9, ?_, hmem9⟩
                rw [alistLookup_erase_ne _ _ _ hsid9,
                  alistLookup_insert_ne _ _ _ _ hsid9]
                exact hs9
        · have hleave : (leave_session st ws now).2 =
              { st with
                sessions := alistInsert sid0
                  { s with participants := alistErase ws s.participants,
                           last_activity := now } st.sessions,
                client_sessions := alistErase ws st.client_sessions } := by
            simp [leave_session, hcs, hgs, hrem, hemp]
          rw [hleave]
          refine ⟨?_, ?_, ?_, ?_⟩
          · intro p hp
            rcases mem_alistInsert _ _ _ p hp with h1 | h1
            · subst h1
              exact hb (sid0, s) hsmem
            · exact hb p h1
          · intro p hp
            rcases mem_alistInsert _ _ _ p hp with h1 | h1
            · subst h1
              simpa using hsid
            · exact hid p h1
          · exact keysNodup_alistErase ws st.client_sessions hnd
          · intro ws9 sid9 h9
            by_cases hws : ws9 = ws
            · subst hws
              rw [alistLookup_erase_self ws9 st.client_sessions hnd] at h9
              exact absurd h9 (by simp)
            · rw [alistLookup_erase_ne _ _ _ hws] at h9
              obtain ⟨s9, hs9, hmem9⟩ := hlink ws9 sid9 h9
              by_cases hsid9 : sid9 = sid0
              · subst hsid9
                rw [hgs] at hs9
                have hseq : s9 = s := (Option.some.inj hs9).symm
                rw [hseq] at hmem9
                refine ⟨_, alistLookup_insert_self _ _ _, ?_⟩
                simp only
                rw [alistLookup_erase_ne _ _ _ hws]
                exact hmem9
              · refine ⟨s9, ?_, hmem9⟩
                rw [alistLookup_insert_ne _ _ _ _ hsid9]
                exact hs9
      · have hrem : s.remove_participant ws now = (false, s) := by
          simp [Session.remove_participant, hin]
        have hins : alistInsert sid0 s st.sessions = st.sessions :=
          alistInsert_lookup_eq sid0 s st.sessions hgs
        simp only [leave_session, hcs, hgs, hrem, hins]
        exact ⟨hb, hid, hnd, hlink⟩

theorem SMInv_apply (st : SMState) (op : SMOp) (h : SMInv st)
    (hop : op.isSweep = false) : SMInv (applySMOp st op) := by
  cases op with
  | create name maxp now => exact SMInv_create st name maxp now h
  | join sid ws info now => exact SMInv_join st sid ws info now h
  | leave ws now => exact SMInv_leave st ws now h
  | sweep cutoff => simp [SMOp.isSweep] at hop

theorem SMInv_foldl (ops : List SMOp) (st : SMState) (h : SMInv st)
    (hops : ∀ op ∈ ops, op.isSweep = false) : SMInv (ops.foldl applySMOp st) := by
  induction ops generalizing st with
  | nil => exact h
  | cons op rest ih =>
    exact ih _ (SMInv_apply st op h (hops op (by simp)))
      (fun o ho => hops o (by simp [ho]))

/-- C3: after any sequence of session-manager operations every session's
participant count is at most its max_participants; join_session returns
false exactly when the target session is missing or at capacity; a failed
join leaves the state (session map and reverse index) unchanged; and when
exactly one slot remains, of two joiners not yet in the session the first
succeeds and the second fails, so at most one succeeds. -/
theorem C3_capacity_invariant_and_join_guard :
    (∀ ops : List SMOp, countInv (runSMOps ops)) ∧
    (∀ st sid ws info now, (join_session st sid ws info now).1 = false ↔
      (get_session st sid = none ∨
        ∃ s, get_session st sid = some s ∧ s.is_full = true)) ∧
    (∀ st sid ws info now, (join_session st sid ws info now).1 = false →
      (join_session st sid ws info now).2 = st) ∧
    (∀ st sid s ws1 ws2 info1 info2 now1 now2,
      get_session st sid = some s →
      s.get_participant_count + 1 = s.max_participants →
      alistLookup ws1 s.participants = none →
      (join_session st sid ws1 info1 now1).1 = true ∧
      (join_session (join_session st sid ws1 info1 now1).2 sid ws2 info2 now2).1 = false) := by
  refine ⟨?_, ?_, ?_, ?_⟩
  · intro ops
    refine countInv_foldl ops initSM ?_
    intro p hp
    simp [initSM] at hp
  · intro st sid ws info now
    constructor
    · intro hfalse
      cases hgs : get_session st sid with
      | none => exact Or.inl rfl
      | some s =>
        by_cases hfull : s.is_full = true
        · exact Or.inr ⟨s, rfl, hfull⟩
        · exfalso
          have hlt := not_full_of_is_full_false s hfull
          have hadd := add_participant_of_not_full s ws info now hlt
          simp only [join_session, hgs, if_neg hfull, hadd] at hfalse
          simp at hfalse
    · intro hd
      rcases hd with hnone | ⟨s, hs, hfull⟩
      · simp [join_session, hnone]
      · simp [join_session, hs, hfull]
  · intro st sid ws info now hfalse
    cases hgs : get_session st sid with
    | none => simp [join_session, hgs]
    | some s =>
      by_cases hfull : s.is_full = true
      · simp [join_session, hgs, hfull]
      · exfalso
        have hlt := not_full_of_is_full_false s hfull
        have hadd := add_participant_of_not_full s ws info now hlt
        simp only [join_session, hgs, if_neg hfull, hadd] at hfalse
        simp at hfalse
  · intro st sid s ws1 ws2 info1 info2 now1 now2 hgs hslot hfresh
    have hlt : s.participants.length < s.max_participants := by
      simp only [Session.get_participant_count] at hslot
      omega
    have hfull : ¬ s.is_full = true := by
      simp only [Session.is_full, decide_eq_true_eq]
      omega
    have hadd := add_participant_of_not_full s ws1 info1 now1 hlt
    have hjoin1 : join_session st sid ws1 info1 now1 =
        (true, { st with
          sessions := alistInsert sid
            { s with participants := alistInsert ws1 info1 s.participants,
                     last_activity := now1 } st.sessions,
          client_sessions := alistInsert ws1 sid st.client_sessions }) := by
      simp [join_session, hgs, hfull, hadd]
    refine ⟨by rw [hjoin1], ?_⟩
    set st2 := (join_session st sid ws1 info1 now1).2 with hst2
    have hgs2 : get_session st2 sid =
        some { s with participants := alistInsert ws1 info1 s.participants,
                      last_activity := now1 } := by
      rw [hst2, hjoin1]
      simp only [get_session]
      exact alistLookup_insert_self _ _ _
    have hfull2 : Session.is_full
        { s with participants := alistInsert ws1 info1 s.participants,
                 last_activity := now1 } = true := by
      simp only [Session.is_full, decide_eq_true_eq]
      rw [length_alistInsert_of_none ws1 info1 s.participants hfresh]
      simp only [Session.get_participant_count] at hslot
      omega
    simp [join_session, hgs2, hfull2]

/-- Witness for C3: in a one-slot session, the first fresh joiner succeeds
and a second joiner then fails. -/
theorem C3_capacity_witness :
    (join_session demoSMState 0 1 demoInfo 0).1 = true ∧
    (join_session (join_session demoSMState 0 1 demoInfo 0).2 0 2 demoInfo 0).1 = false :=
  C3_capacity_invariant_and_join_guard.2.2.2 demoSMState 0 demoSession1 1 2 demoInfo demoInfo
    0 0 (by rfl) (by rfl) (by rfl)

/-- C2 counterexample: after create, join and one inactivity-sweep pass,
client 1 still maps to session 0 in the reverse index while session 0 has
been deleted, so the claimed link between the session map and the reverse
index fails under sweeps: the sweep deletes sessions without cleaning
their reverse-index entries. -/
theorem C2_sweep_counterexample :
    alistLookup 1 (runSMOps sweepTrace).client_sessions = some 0 ∧
    get_session (runSMOps sweepTrace) 0 = none ∧
    ¬ linkInv (runSMOps sweepTrace) := by
  refine ⟨by rfl, by rfl, ?_⟩
  intro h
  obtain ⟨s, hs, hmem⟩ := h 1 0 (by rfl)
  rw [show alistLookup 0 (runSMOps sweepTrace).sessions = (none : Option Session)
    from rfl] at hs
  exact Option.noConfusion hs

/-- C2 (amended): after any sequence of createSession, joinSession and
leaveSession operations — with no inactivity sweep — the session map and
reverse index are consistency-linked: a client appears in the reverse
index only when it is a participant of the (existing) session the index
maps it to.  The sweep can orphan reverse-index entries, so the claim
holds only for sweep-free operation sequences. -/
theorem C2_link_invariant_without_sweep (ops : List SMOp)
    (hops : ∀ op ∈ ops, op.isSweep = false) : linkInv (runSMOps ops) :=
  (SMInv_foldl ops initSM SMInv_init hops).2.2.2

/-- Witness for C2 (amended): after create and join, the indexed client 1 is
a participant of session 0. -/
theorem C2_link_invariant_witness :
    ∃ s, alistLookup 0 (runSMOps noSweepTrace).sessions = some s ∧
      (alistLookup 1 s.participants).isSome = true :=
  C2_link_invariant_without_sweep noSweepTrace (by decide) 1 0 (by rfl)

/-- C5: leave_session returns false and leaves the state unchanged when the
caller is in no session (absent from the reverse index, or its indexed
session no longer exists); otherwise it removes the caller from the
session, stamps the activity timestamp, removes the reverse-index entry,
and deletes the session exactly when it became empty, making a subsequent
get_session for that id return none. -/
theorem C5_leave_session_semantics :
    (∀ st ws now, alistLookup ws st.client_sessions = none →
      leave_session st ws now = (false, st)) ∧
    (∀ st ws sid now, alistLookup ws st.client_sessions = some sid →
      alistLookup sid st.sessions = none →
      leave_session st ws now = (false, st)) ∧
    (∀ st ws sid s info now,
      alistLookup ws st.client_sessions = some sid →
      alistLookup sid st.sessions = some s →
      s.session_id = sid →
      alistLookup ws s.participants = some info →
      (st.sessions.map Prod.fst).Nodup →
      (leave_session st ws now).1 = true ∧
      (leave_session st ws now).2.client_sessions = alistErase ws st.client_sessions ∧
      ((alistErase ws s.participants).length = 0 →
        get_session (leave_session st ws now).2 sid = none) ∧
      ((alistErase ws s.participants).length ≠ 0 →
        get_session (leave_session st ws now).2 sid =
          some { s with participants := alistErase ws s.participants,
                        last_activity := now })) := by
  refine ⟨?_, ?_, ?_⟩
  · intro st ws now hcs
    simp [leave_session, hcs]
  · intro st ws sid now hcs hgs
    simp [leave_session, hcs, hgs]
  · intro st ws sid s info now hcs hgs hsid hinfo hnd
    have hin : (alistLookup ws s.participants).isSome = true := by
      rw [hinfo]
      rfl
    have hrem := remove_participant_of_mem s ws now hin
    by_cases hlen : (alistErase ws s.participants).length = 0
    · have hemp : (Session.is_empty
          { s with participants := alistErase ws s.participants,
                   last_activity := now }) = true := by
        simp [Session.is_empty, hlen]
      have hleave : leave_session st ws now =
          (true, { st with
            sessions := alistErase s.session_id (alistInsert sid
              { s with participants := alistErase ws s.participants,
                       last_activity := now } st.sessions),
            client_sessions := alistErase ws st.client_sessions }) := by
        simp [leave_session, hcs, hgs, hrem, hemp]
      rw [hsid] at hleave
      refine ⟨by rw [hleave], by rw [hleave], fun _ => ?_, fun hne => absurd hlen hne⟩
      rw [hleave]
      simp only [get_session]
      exact alistLookup_erase_self sid _
        (keysNodup_alistInsert sid _ st.sessions hnd)
    · have hemp : (Session.is_empty
          { s with participants := alistErase ws s.participants,
                   last_activity := now }) = false := by
        simp [Session.is_empty, hlen]
      have hleave : leave_session st ws now =
          (true, { st with
            sessions := alistInsert sid
              { s with participants := alistErase ws s.participants,
                       last_activity := now } st.sessions,
            client_sessions := alistErase ws st.client_sessions }) := by
        simp [leave_session, hcs, hgs, hrem, hemp]
      refine ⟨by rw [hleave], by rw [hleave], fun h0 => absurd h0 hlen, fun _ => ?_⟩
      rw [hleave]
      simp only [get_session]
      exact alistLookup_insert_self sid _ st.sessions

/-- Witness for C5: leaving one of two participants keeps the session with
an updated timestamp; an unknown client is a no-op returning false; the
last participant leaving deletes the session so get_session returns none. -/
theorem C5_leave_witness :
    (leave_session demoTwoState 1 5).1 = true ∧
    get_session (leave_session demoTwoState 1 5).2 0 =
      some { session_id := 0, name := "pair", created_at := 0, max_participants := 2,
             participants := [(2, demoInfo)], last_activity := 5 } ∧
    leave_session demoTwoState 3 5 = (false, demoTwoState) ∧
    get_session (leave_session demoOneState 1 5).2 0 = none := by
  have h1 := C5_leave_session_semantics.2.2 demoTwoState 1 0 demoTwoSession demoInfo 5
    (by rfl) (by rfl) (by rfl) (by rfl) (by decide)
  have h2 := C5_leave_session_semantics.2.2 demoOneState 1 0 demoOneSession demoInfo 5
    (by rfl) (by rfl) (by rfl) (by rfl) (by decide)
  have h3 := C5_leave_session_semantics.1 demoTwoState 3 5 (by rfl)
  exact ⟨h1.1, h1.2.2.2 (by decide), h3, h2.2.2.1 (by decide)⟩

theorem alistErase_of_lookup_none {K V : Type} [DecidableEq K] (k : K) (l : List (K × V))
    (h : alistLookup k l = none) : alistErase k l = l := by
  induction l with
  | nil => simp [alistErase]
  | cons q rest ih =>
    obtain ⟨k1, v1⟩ := q
    by_cases hk : k = k1
    · subst hk
      simp [alistLookup] at h
    · simp only [alistLookup, if_neg hk] at h
      simp [alistErase, hk, ih h]

theorem runABOps_conservation (ops : List ABOp) :
    ∀ b : AudioBuffer,
      outBytes (runABOps ops b).1 ++ (runABOps ops b).2.buffer.flatten =
        b.buffer.flatten ++ inBytes ops := by
  induction ops with
  | nil =>
    intro b
    simp [runABOps, outBytes, inBytes]
  | cons op rest ih =>
    intro b
    cases op with
    | add c =>
      have h := ih (b.add_chunk c)
      simp only [runABOps]
      rw [h]
      simp [AudioBuffer.add_chunk, inBytes, List.filterMap_cons, List.append_assoc]
    | take =>
      by_cases hb : b.buffer = []
      · have hr : b.get_new_audio = (none, b) := by
          simp [AudioBuffer.get_new_audio, hb]
        simp only [runABOps, hr]
        have h := ih b
        have houts : outBytes (none :: (runABOps rest b).1) =
            outBytes (runABOps rest b).1 := by
          simp [outBytes]
        rw [houts, h, hb]
        simp [inBytes]
      · have hr : b.get_new_audio = (some b.buffer.flatten, { b with buffer := [] }) := by
          simp [AudioBuffer.get_new_audio, hb]
        simp only [runABOps, hr]
        have h := ih { b with buffer := [] }
        have houts : outBytes (some b.buffer.flatten ::
              (runABOps rest { b with buffer := [] }).1) =
            b.buffer.flatten ++ outBytes (runABOps rest { b with buffer := [] }).1 := by
          simp [outBytes]
        rw [houts, List.append_assoc, h]
        simp [inBytes]

theorem getTranscriptions_length_le (runningAt : Nat → Bool)
    (queueHead : Nat → Option (String × Rat)) :
    ∀ (fuel tick k : Nat), runningAt (tick + k) = false →
      (getTranscriptions runningAt queueHead fuel tick).length ≤ k := by
  intro fuel
  induction fuel with
  | zero =>
    intro tick k h
    simp [getTranscriptions]
  | succ fuel ih =>
    intro tick k h
    by_cases hr : runningAt tick = true
    · cases k with
      | zero =>
        rw [Nat.add_zero] at h
        rw [h] at hr
        exact absurd hr (by simp)
      | succ k9 =>
        have h9 : runningAt (tick + 1 + k9) = false := by
          have heq : tick + 1 + k9 = tick + (k9 + 1) := by omega
          rw [heq]
          exact h
        cases hq : queueHead tick with
        | some item =>
          simp only [getTranscriptions, hr, if_true, hq, List.length_cons]
          have := ih (tick + 1) k9 h9
          omega
        | none =>
          simp only [getTranscriptions, hr, if_true, hq]
          have := ih (tick + 1) k9 h9
          omega
    · have hr9 : runningAt tick = false := by
        simpa using hr
      simp [getTranscriptions, hr9]

theorem drainQueue_buffer (roleAt : Nat → String) :
    ∀ (queue : List (List Nat)) (tick : Nat) (tr : TranscriberState),
      (drainQueue roleAt tick tr queue).audio_buffer.buffer =
        tr.audio_buffer.buffer ++ speakerChunks roleAt tick queue := by
  intro queue
  induction queue with
  | nil =>
    intro tick tr
    simp [drainQueue, speakerChunks]
  | cons c rest ih =>
    intro tick tr
    simp only [drainQueue, speakerChunks]
    rw [ih (tick + 1) (process_audio (roleAt tick) tr c)]
    by_cases hr : roleAt tick = "speaker"
    · simp [process_audio, hr, TranscriberState.add_audio_chunk, AudioBuffer.add_chunk,
        List.append_assoc]
    · simp [process_audio, hr]

theorem speakerChunks_const (r : String) :
    ∀ (queue : List (List Nat)) (tick : Nat),
      speakerChunks (fun _ => r) tick queue = if r = "speaker" then queue else [] := by
  intro queue
  induction queue with
  | nil =>
    intro tick
    by_cases hr : r = "speaker" <;> simp [speakerChunks, hr]
  | cons c rest ih =>
    intro tick
    by_cases hr : r = "speaker"
    · subst hr
      simp [speakerChunks, ih (tick + 1)]
    · simp [speakerChunks, hr, ih (tick + 1)]

theorem disconnectCleanup_eq (ws : Nat) (st : ServerState) :
    disconnectCleanup ws st = { st with
      active_transcribers := alistErase ws st.active_transcribers,
      active_connections := st.active_connections.erase ws,
      client_configs := alistErase ws st.client_configs,
      client_queues :=
        match (alistLookup ws st.client_configs).map (fun c => c.client_id) with
        | some cid => alistErase cid st.client_queues
        | none => st.client_queues } := by
  cases htr : alistLookup ws st.active_transcribers <;>
    cases hcfg : alistLookup ws st.client_configs <;>
      simp [disconnectCleanup, htr, hcfg, alistErase_of_lookup_none]

/-- C4: feeding any message sequence longer than the capacity into an empty
bounded queue leaves exactly the most recent cap messages, in arrival
order — the oldest entries are evicted one by one — and add_message never
rejects: at the default capacity the new message is always admitted as the
newest entry. -/
theorem C4_drop_oldest_retention :
    (∀ (M : Type) (cap : Nat) (ms : List M), cap < ms.length →
      List.foldl (addMessage cap) [] ms = ms.drop (ms.length - cap) ∧
      (List.foldl (addMessage cap) [] ms).length = cap) ∧
    (∀ (M : Type) (q : List M) (m : M),
      (addMessage defaultQueueCapacity q m).getLast? = some m) := by
  constructor
  · intro M cap ms hlen
    refine ⟨foldl_addMessage cap ms, ?_⟩
    rw [foldl_addMessage cap ms, List.length_drop]
    omega
  · intro M q m
    exact addMessage_getLast defaultQueueCapacity q m (by simp [defaultQueueCapacity])

/-- Witness for C4: capacity 2 with four messages retains the last two, and
a new message lands at the tail. -/
theorem C4_drop_oldest_witness :
    List.foldl (addMessage 2) [] [10, 20, 30, 40] = [30, 40] ∧
    (addMessage defaultQueueCapacity [1, 2] 3).getLast? = some 3 := by
  have h := C4_drop_oldest_retention
  refine ⟨?_, h.2 Nat [1, 2] 3⟩
  exact ((h.1 Nat 2 [10, 20, 30, 40] (by decide)).1).trans (by decide)

/-- C6: get_new_audio called twice with no intervening add_chunk returns
the no-data sentinel the second time; and across any interleaving of
add_chunk and get_new_audio from a fresh buffer, the bytes returned plus
the bytes still buffered equal the bytes added, in order — in particular
whenever the trace ends with an empty buffer the returned bytes are
exactly the added bytes: no byte is lost or duplicated. -/
theorem C6_audio_buffer_no_loss :
    (∀ b : AudioBuffer, (b.get_new_audio.2.get_new_audio).1 = none) ∧
    (∀ ops : List ABOp,
      outBytes (runABOps ops AudioBuffer.init).1 ++
        (runABOps ops AudioBuffer.init).2.buffer.flatten = inBytes ops) ∧
    (∀ ops : List ABOp, (runABOps ops AudioBuffer.init).2.buffer = [] →
      outBytes (runABOps ops AudioBuffer.init).1 = inBytes ops) := by
  have hdouble : ∀ b : AudioBuffer, (b.get_new_audio.2.get_new_audio).1 = none := by
    intro b
    by_cases hb : b.buffer = []
    · simp [AudioBuffer.get_new_audio, hb]
    · simp [AudioBuffer.get_new_audio, hb]
  refine ⟨hdouble, ?_, ?_⟩
  · intro ops
    have h := runABOps_conservation ops AudioBuffer.init
    simpa [AudioBuffer.init] using h
  · intro ops hempty
    have h := runABOps_conservation ops AudioBuffer.init
    rw [hempty] at h
    simpa [AudioBuffer.init] using h

/-- Witness for C6 on a concrete interleaving that ends with an empty
buffer, plus a concrete double take. -/
theorem C6_audio_buffer_witness :
    outBytes (runABOps demoABTrace AudioBuffer.init).1 = inBytes demoABTrace ∧
    ((AudioBuffer.init.add_chunk [1]).get_new_audio.2.get_new_audio).1 = none :=
  ⟨C6_audio_buffer_no_loss.2.2 demoABTrace (by rfl),
   C6_audio_buffer_no_loss.1 (AudioBuffer.init.add_chunk [1])⟩

theorem processAudioCycle_skip_empty (recognize : List Nat → Except String String)
    (st : TranscriberState) (hb : st.audio_buffer.buffer = []) :
    processAudioCycle recognize st = (st, none) := by
  have hr : st.audio_buffer.get_new_audio = (none, st.audio_buffer) := by
    rw [AudioBuffer.get_new_audio, if_pos hb]
  simp only [processAudioCycle, hr]

theorem processAudioCycle_skip_small (recognize : List Nat → Except String String)
    (st : TranscriberState) (hb : st.audio_buffer.buffer ≠ [])
    (hlen : st.audio_buffer.buffer.flatten.length < minAudioBytes) :
    processAudioCycle recognize st =
      ({ st with audio_buffer := { st.audio_buffer with buffer := [] } }, none) := by
  have hr : st.audio_buffer.get_new_audio =
      (some st.audio_buffer.buffer.flatten, { st.audio_buffer with buffer := [] }) := by
    rw [AudioBuffer.get_new_audio, if_neg hb]
  simp only [processAudioCycle, hr]
  rw [if_pos hlen]

theorem processAudioCycle_recognize (recognize : List Nat → Except String String)
    (st : TranscriberState) (hb : st.audio_buffer.buffer ≠ [])
    (hlen : minAudioBytes ≤ st.audio_buffer.buffer.flatten.length) :
    processAudioCycle recognize st =
      ({ st with audio_buffer := { st.audio_buffer with buffer := [] },
                 transcription_queue := st.transcription_queue ++
                   [transcribeAudioChunk recognize st.audio_buffer.buffer.flatten] },
        some st.audio_buffer.buffer.flatten) := by
  have hr : st.audio_buffer.get_new_audio =
      (some st.audio_buffer.buffer.flatten, { st.audio_buffer with buffer := [] }) := by
    rw [AudioBuffer.get_new_audio, if_neg hb]
  simp only [processAudioCycle, hr]
  rw [if_neg (Nat.not_lt.mpr hlen)]

theorem fiveChunk_buffer_not_nil : fiveChunkTranscriber.audio_buffer.buffer ≠ [] := by
  intro h
  have hlen := congrArg List.length h
  rw [show fiveChunkTranscriber.audio_buffer.buffer =
    List.replicate 5 (List.replicate 2000 0) from rfl, List.length_replicate] at hlen
  exact absurd hlen (by decide)

theorem fiveChunk_total_bytes :
    fiveChunkTranscriber.audio_buffer.buffer.flatten.length = 10000 := by
  rw [show fiveChunkTranscriber.audio_buffer.buffer =
    List.replicate 5 (List.replicate 2000 0) from rfl, List.length_flatten,
    List.map_replicate, List.length_replicate, List.sum_replicate, smul_eq_mul]

theorem fiveChunk_over_threshold :
    minAudioBytes ≤ fiveChunkTranscriber.audio_buffer.buffer.flatten.length := by
  rw [fiveChunk_total_bytes]
  decide

/-- C7 counterexample: five 2000-byte chunks in one interval total 10000
bytes, at least the 8000-byte threshold, so the cycle DOES make a
recognition call — the threshold applies to the combined accumulated
bytes, not per chunk, contrary to the claimed no-call scenario. -/
theorem C7_five_chunks_trigger_recognition :
    (processAudioCycle (fun _ => Except.ok "hello") fiveChunkTranscriber).2 =
      some (List.replicate 5 (List.replicate 2000 0)).flatten ∧
    (List.replicate 5 (List.replicate 2000 (0 : Nat))).flatten.length = 10000 := by
  constructor
  · rw [processAudioCycle_recognize (fun _ => Except.ok "hello") fiveChunkTranscriber
      fiveChunk_buffer_not_nil fiveChunk_over_threshold]
    rfl
  · rw [List.length_flatten, List.map_replicate, List.length_replicate,
      List.sum_replicate, smul_eq_mul]

/-- C7 (amended): a recognition cycle invokes the recognizer — exactly once
— precisely when at least one chunk is pending and the combined
accumulated bytes reach the 8000-byte threshold, and the call receives
exactly the combined bytes; otherwise the cycle makes no recognition
call.  Five 2000-byte chunks total 10000 bytes and so trigger one call;
only totals under 8000 bytes are skipped. -/
theorem C7_recognition_threshold_gate (recognize : List Nat → Except String String)
    (st : TranscriberState) :
    (processAudioCycle recognize st).2 =
      if st.audio_buffer.buffer ≠ [] ∧
          minAudioBytes ≤ st.audio_buffer.buffer.flatten.length
      then some st.audio_buffer.buffer.flatten
      else none := by
  by_cases hb : st.audio_buffer.buffer = []
  · rw [processAudioCycle_skip_empty recognize st hb,
      if_neg (fun h => h.1 hb)]
  · by_cases hlen : st.audio_buffer.buffer.flatten.length < minAudioBytes
    · rw [processAudioCycle_skip_small recognize st hb hlen,
        if_neg (fun h => absurd h.2 (Nat.not_le.mpr hlen))]
    · rw [processAudioCycle_recognize recognize st hb (Nat.le_of_not_lt hlen),
        if_pos ⟨hb, Nat.le_of_not_lt hlen⟩]

/-- C8 counterexample: when the recognizer raises on an over-threshold
cycle, the exception is caught and the loop stays runnable, but the
("", 0.0) sentinel IS pushed onto the result queue — `if result:` is a
truthiness test on a 2-tuple and is always true — contradicting the claim
that nothing is pushed for a failed cycle. -/
theorem C8_error_sentinel_is_pushed :
    (processAudioCycle (fun _ => Except.error "boom")
        fiveChunkTranscriber).1.transcription_queue = [("", 0)] ∧
    (processAudioCycle (fun _ => Except.error "boom")
        fiveChunkTranscriber).1.running = true := by
  rw [processAudioCycle_recognize (fun _ => Except.error "boom") fiveChunkTranscriber
    fiveChunk_buffer_not_nil fiveChunk_over_threshold]
  exact ⟨rfl, rfl⟩

/-- C8 (amended): a recognizer exception is caught — transcribeAudioChunk
returns the ("", 0.0) sentinel instead of propagating — and the cycle
leaves the running flag untouched, so a failure never terminates the loop
or the connection; but for a failed over-threshold cycle the sentinel pair
IS appended to the result queue (its empty text means no transcription is
emitted downstream). -/
theorem C8_recognizer_failure_is_caught (recognize : List Nat → Except String String)
    (st : TranscriberState) (e : String)
    (hfail : ∀ d, recognize d = Except.error e) :
    (∀ d, transcribeAudioChunk recognize d = ("", 0)) ∧
    (processAudioCycle recognize st).1.running = st.running ∧
    (st.audio_buffer.buffer ≠ [] →
      minAudioBytes ≤ st.audio_buffer.buffer.flatten.length →
      (processAudioCycle recognize st).1.transcription_queue =
        st.transcription_queue ++ [("", 0)]) := by
  have htrans : ∀ d, transcribeAudioChunk recognize d = ("", 0) := by
    intro d
    simp [transcribeAudioChunk, hfail d]
  refine ⟨htrans, ?_, ?_⟩
  · by_cases hb : st.audio_buffer.buffer = []
    · rw [processAudioCycle_skip_empty recognize st hb]
    · by_cases hlen : st.audio_buffer.buffer.flatten.length < minAudioBytes
      · rw [processAudioCycle_skip_small recognize st hb hlen]
      · rw [processAudioCycle_recognize recognize st hb (Nat.le_of_not_lt hlen)]
  · intro hb hlen
    rw [processAudioCycle_recognize recognize st hb hlen, htrans]

/-- Witness for C8 (amended) on the five-chunk state with a failing
recognizer. -/
theorem C8_recognizer_failure_witness :
    (processAudioCycle (fun _ => Except.error "x") fiveChunkTranscriber).1.running = true ∧
    (processAudioCycle (fun _ => Except.error "x")
        fiveChunkTranscriber).1.transcription_queue = [("", 0)] := by
  have h := C8_recognizer_failure_is_caught (fun _ => Except.error "x")
    fiveChunkTranscriber "x" (fun _ => rfl)
  refine ⟨h.2.1.trans rfl, ?_⟩
  have h3 := h.2.2 fiveChunk_buffer_not_nil fiveChunk_over_threshold
  exact h3.trans rfl

/-- C9: stop clears the running flag, drops the joined thread and clears
the AudioBuffer; the recognition loop observes the cleared flag and exits
at once, leaving no background loop running; the result sequence
terminates immediately when the running flag reads false and, when the
flag goes false k ticks ahead, yields at most k further items — so it
yields items only while the flag is true. -/
theorem C9_stop_terminates_sequence :
    (∀ st : TranscriberState, (st.stop).running = false ∧
      (st.stop).audio_buffer = st.audio_buffer.clear ∧
      (st.stop).processing_thread = false) ∧
    (∀ (recognize : List Nat → Except String String) (fuel : Nat) (st : TranscriberState),
      processLoop recognize fuel st.stop = st.stop) ∧
    (∀ (runningAt : Nat → Bool) (queueHead : Nat → Option (String × Rat)) (fuel tick : Nat),
      runningAt tick = false → getTranscriptions runningAt queueHead fuel tick = []) ∧
    (∀ (runningAt : Nat → Bool) (queueHead : Nat → Option (String × Rat)) (fuel tick k : Nat),
      runningAt (tick + k) = false →
      (getTranscriptions runningAt queueHead fuel tick).length ≤ k) := by
  refine ⟨?_, ?_, ?_, ?_⟩
  · intro st
    exact ⟨rfl, rfl, rfl⟩
  · intro recognize fuel st
    cases fuel with
    | zero => rfl
    | succ f => simp [processLoop, TranscriberState.stop]
  · intro runningAt queueHead fuel tick h
    cases fuel with
    | zero => rfl
    | succ f => simp [getTranscriptions, h]
  · intro runningAt queueHead fuel tick k h
    exact getTranscriptions_length_le runningAt queueHead fuel tick k h

/-- Witness for C9: stopping a started transcriber clears the flag; the
loop after stop is inert; a constantly false schedule yields nothing and a
schedule going false at tick 2 yields at most 2 items. -/
theorem C9_stop_witness :
    (TranscriberState.stop (TranscriberState.start mkTranscriber)).running = false ∧
    processLoop (fun _ => Except.ok "t") 7
        (TranscriberState.stop (TranscriberState.start mkTranscriber)) =
      TranscriberState.stop (TranscriberState.start mkTranscriber) ∧
    getTranscriptions (fun _ => false) (fun _ => some ("t", 1)) 5 0 = [] ∧
    (getTranscriptions (fun t => decide (t < 2)) (fun _ => some ("t", 1)) 9 0).length ≤ 2 :=
  ⟨(C9_stop_terminates_sequence.1 (TranscriberState.start mkTranscriber)).1,
   C9_stop_terminates_sequence.2.1 (fun _ => Except.ok "t") 7
     (TranscriberState.start mkTranscriber),
   C9_stop_terminates_sequence.2.2.1 (fun _ => false) (fun _ => some ("t", 1)) 5 0 rfl,
   C9_stop_terminates_sequence.2.2.2 (fun t => decide (t < 2)) (fun _ => some ("t", 1))
     9 0 2 rfl⟩

/-- C1 counterexample: client 1 disconnects mid-session; the cleanup
removes its connection, config, transcriber and queue but leaves the
session manager untouched: client 1 is still a participant of session 0
and the peer's get_other_session_participants still returns client 1 — the
cleanup performs no leave-session step, contradicting the claimed
leave-any-joined-session step and its consequence. -/
theorem C1_disconnect_does_not_leave_session :
    get_other_session_participants
        (disconnectCleanup 1 c1ServerState).session_manager 2 = [1] ∧
    alistLookup 1 (disconnectCleanup 1 c1ServerState).client_configs = none ∧
    (disconnectCleanup 1 c1ServerState).active_connections = [2] ∧
    (disconnectCleanup 1 c1ServerState).session_manager =
      c1ServerState.session_manager :=
  ⟨rfl, rfl, rfl, rfl⟩

/-- C1 (amended): on disconnect the cleanup stops and discards the
transcription controller, removes the connection from active-connections,
discards the per-connection config and removes the client's message queue
— but performs no leave-session step: the session-manager state is
unchanged, so the disconnected client remains a participant of its former
session and every peer's getOtherParticipants result is unchanged (the
session is reclaimed only by the inactivity sweep). -/
theorem C1_disconnect_cleanup_semantics (ws : Nat) (st : ServerState) :
    (disconnectCleanup ws st).session_manager = st.session_manager ∧
    (disconnectCleanup ws st).active_connections = st.active_connections.erase ws ∧
    ((st.active_transcribers.map Prod.fst).Nodup →
      alistLookup ws (disconnectCleanup ws st).active_transcribers = none) ∧
    ((st.client_configs.map Prod.fst).Nodup →
      alistLookup ws (disconnectCleanup ws st).client_configs = none) ∧
    (∀ c, alistLookup ws st.client_configs = some c →
      (st.client_queues.map Prod.fst).Nodup →
      alistLookup c.client_id (disconnectCleanup ws st).client_queues = none) ∧
    (∀ peer, get_other_session_participants
        (disconnectCleanup ws st).session_manager peer =
      get_other_session_participants st.session_manager peer) := by
  rw [disconnectCleanup_eq]
  refine ⟨rfl, rfl, fun hnd => alistLookup_erase_self ws _ hnd,
    fun hnd => alistLookup_erase_self ws _ hnd, ?_, fun peer => rfl⟩
  intro c hc hnd
  simp only [hc, Option.map_some]
  exact alistLookup_erase_self c.client_id _ hnd

/-- Witness for C1 (amended) at the concrete two-client state. -/
theorem C1_disconnect_cleanup_witness :
    (disconnectCleanup 1 c1ServerState).session_manager =
      c1ServerState.session_manager ∧
    alistLookup 1 (disconnectCleanup 1 c1ServerState).active_transcribers = none ∧
    alistLookup 1 (disconnectCleanup 1 c1ServerState).client_queues = none := by
  have h := C1_disconnect_cleanup_semantics 1 c1ServerState
  refine ⟨h.1, h.2.2.1 (by decide), ?_⟩
  have hq := h.2.2.2.2.1 { defaultClientConfig 1 with session_id := some 0 }
    (by rfl) (by decide)
  simpa using hq

/-- C10: whether a queued chunk is fed to the transcriber is decided by the
client's role at the moment the chunk is dequeued: enqueueing is
role-independent (chunks are queued whatever the role at arrival); a drain
feeds exactly the chunks whose dequeue tick sees the speaker role; hence
after a listener-to-speaker switch all already-queued chunks are forwarded
to the transcriber, and after a speaker-to-listener switch they are all
dequeued but silently discarded. -/
theorem C10_role_read_at_dequeue :
    (∀ role1 role2 queue chunk,
      enqueueAudio role1 queue chunk = enqueueAudio role2 queue chunk) ∧
    (∀ (roleAt : Nat → String) (queue : List (List Nat)) (tick : Nat)
        (tr : TranscriberState),
      (drainQueue roleAt tick tr queue).audio_buffer.buffer =
        tr.audio_buffer.buffer ++ speakerChunks roleAt tick queue) ∧
    (∀ (queue : List (List Nat)) (tick : Nat) (tr : TranscriberState),
      (drainQueue (fun _ => "speaker") tick tr queue).audio_buffer.buffer =
        tr.audio_buffer.buffer ++ queue) ∧
    (∀ (queue : List (List Nat)) (tick : Nat) (tr : TranscriberState),
      (drainQueue (fun _ => "listener") tick tr queue).audio_buffer.buffer =
        tr.audio_buffer.buffer) := by
  refine ⟨fun _ _ _ _ => rfl,
    fun roleAt q t tr => drainQueue_buffer roleAt q t tr, ?_, ?_⟩
  · intro q t tr
    rw [drainQueue_buffer, speakerChunks_const]
    simp
  · intro q t tr
    rw [drainQueue_buffer, speakerChunks_const]
    simp

end VerbyFlow
